import Mathlib

/-!
Verification of the Information Value (IV) routine `calculate_iv` from
`src/feature_engineering.py` of the credit-risk-modeling repository.

Modelling conventions for the shallow embedding:

  - A pandas `DataFrame` is a list of named columns; a column carries a
    storage dtype tag (`float64`, `int64`, `object`) and a list of cells.
  - Floating-point cell values are modelled as exact rationals (`ℚ`); a
    missing value (`NaN` cell) is `Option.none`.  The Python literal
    `0.0001` is the rational `1/10000`.
  - IEEE special values produced by the arithmetic of the routine
    (`inf`, `-inf`, `nan` from divisions by zero and logarithms) are
    modelled explicitly by the carriers `XQ` (extended rationals, used
    up to the log step, where every finite value the code produces is an
    exact rational) and `XV K` (extended values of a field `K`, used
    from the log step on).  `np.log` is passed in as a parameter
    `lg : ℚ → K`; every theorem about actual logarithm values
    instantiates `K := ℝ`, `lg := Real.log`.
  - `df.groupby(feature)` drops rows whose key is missing
    (pandas default `dropna=True`); for a `qcut`-produced categorical
    key every interval is a group, observed or not (pandas default
    `observed=False`); group keys come out sorted.
  - `.agg(['count','sum'])` counts the non-missing target cells of a
    group and sums them (pandas skips `NaN` inside `count` and `sum`).
  - `Series.sum()` of the final IV column skips `NaN` entries
    (pandas default `skipna=True`); the sum of an empty or all-`NaN`
    column is `0.0`.
  - `pd.qcut(x, q=10, duplicates='drop')` computes 11 linearly
    interpolated quantile edges of the non-missing values, drops
    duplicate edges, and labels each value with the right-closed
    interval it falls into (the lowest edge is included in the first
    interval).  With `duplicates='drop'` the call never raises: values
    whose searchsorted id falls outside the deduplicated edges are
    masked and filled as missing labels, so a constant column (a single
    deduplicated edge) yields an all-missing label column, the groupby
    then produces zero groups, and `calculate_iv` returns `0.0`.
-/

namespace CreditRisk

/-- Storage dtype of a pandas column, as far as `calculate_iv` inspects it:
`float64` and `int64` are sent through `pd.qcut`, everything else is grouped
as-is. -/
inductive Dtype
  | float64
  | int64
  | object
deriving DecidableEq

/-- A pandas column: a dtype tag and a list of cells, `none` being `NaN`. -/
structure Column where
  dtype : Dtype
  values : List (Option ℚ)
deriving DecidableEq

/-- A pandas DataFrame: named columns, rows aligned by position. -/
structure Dataset where
  cols : List (String × Column)
deriving DecidableEq

/-- The only error `calculate_iv` can raise: a `KeyError` from
`df[[feature, target]]` when a column is absent. -/
inductive Err
  | columnNotFound
deriving DecidableEq

/-- Column selection `df[name]`: first column with the given label. -/
def lookupCol (df : Dataset) (name : String) : Option Column :=
  (df.cols.find? (fun p => p.1 == name)).map Prod.snd

/-- Extended rationals: the values a float column of the routine can hold up
to the log step — an exact rational, `inf`, `-inf`, or `nan`. -/
inductive XQ
  | fin (q : ℚ)
  | pinf
  | ninf
  | nan
deriving DecidableEq

/-- IEEE division on extended rationals (`numpy` float semantics):
`a/0` is `±inf` for `a ≠ 0` and `nan` for `a = 0`; a finite value divided by
an infinity is `0`; an infinity divided by a finite value keeps its sign for
a nonnegative divisor and flips it otherwise; `inf/inf` and anything with
`nan` is `nan`. -/
def XQ.div : XQ → XQ → XQ
  | .nan, _ => .nan
  | _, .nan => .nan
  | .fin a, .fin b =>
      if b = 0 then (if 0 < a then .pinf else if a < 0 then .ninf else .nan)
      else .fin (a / b)
  | .fin _, .pinf => .fin 0
  | .fin _, .ninf => .fin 0
  | .pinf, .fin b => if 0 ≤ b then .pinf else .ninf
  | .ninf, .fin b => if 0 ≤ b then .ninf else .pinf
  | .pinf, .pinf => .nan
  | .pinf, .ninf => .nan
  | .ninf, .pinf => .nan
  | .ninf, .ninf => .nan

/-- IEEE subtraction on extended rationals. -/
def XQ.sub : XQ → XQ → XQ
  | .nan, _ => .nan
  | _, .nan => .nan
  | .fin a, .fin b => .fin (a - b)
  | .fin _, .pinf => .ninf
  | .fin _, .ninf => .pinf
  | .pinf, .fin _ => .pinf
  | .ninf, .fin _ => .ninf
  | .pinf, .ninf => .pinf
  | .ninf, .pinf => .ninf
  | .pinf, .pinf => .nan
  | .ninf, .ninf => .nan

/-- The zero-substitution guard `Series.replace(0, 0.0001)`: an exactly-zero
entry becomes `1/10000`; every other entry (including `inf`/`nan`) is kept. -/
def replaceZero : XQ → XQ
  | .fin q => if q = 0 then .fin (1/10000) else .fin q
  | x => x

/-- Extended values of a field `K`: the carrier of the WoE and IV columns
after the log step. -/
inductive XV (K : Type)
  | fin (x : K)
  | pinf
  | ninf
  | nan
deriving DecidableEq

/-- Test for the `nan` element of `XV K`. -/
def XV.isNan {K : Type} : XV K → Bool
  | .nan => true
  | _ => false

/-- IEEE addition on extended values of `K`. -/
def XV.add {K : Type} [Field K] : XV K → XV K → XV K
  | .nan, _ => .nan
  | _, .nan => .nan
  | .fin a, .fin b => .fin (a + b)
  | .fin _, .pinf => .pinf
  | .fin _, .ninf => .ninf
  | .pinf, .fin _ => .pinf
  | .ninf, .fin _ => .ninf
  | .pinf, .pinf => .pinf
  | .ninf, .ninf => .ninf
  | .pinf, .ninf => .nan
  | .ninf, .pinf => .nan

/-- Elementwise `np.log` on an extended rational, with the actual logarithm
supplied as `lg : ℚ → K`: the log of a positive rational is `lg` of it, the
log of zero is `-inf`, the log of a negative value or of `-inf` is `nan`,
and the log of `inf` is `inf`. -/
def xlog {K : Type} (lg : ℚ → K) : XQ → XV K
  | .fin q => if 0 < q then .fin (lg q) else if q = 0 then .ninf else .nan
  | .pinf => .pinf
  | .ninf => .nan
  | .nan => .nan

/-- Pandas `Series.sum()` with its default `skipna=True`: drop the `nan`
entries, then sum left-to-right (an empty or all-`nan` column sums to `0`). -/
def nansum {K : Type} [Field K] (l : List (XV K)) : XV K :=
  (l.filter (fun x => ! x.isNan)).foldl XV.add (.fin 0)

/-- The linearly interpolated quantile `np.quantile(s, i/10)` of a sorted
nonempty list `s` of `n` values: position `i/10 * (n-1)`, interpolating
between the neighbouring order statistics. -/
def quantileAt (s : List ℚ) (i : ℕ) : ℚ :=
  let n := s.length
  let pos : ℚ := (i : ℚ) * ((n : ℚ) - 1) / 10
  let j : ℕ := (Int.floor pos).toNat
  let g : ℚ := pos - (j : ℚ)
  let a := s.getD j 0
  let b := s.getD (j + 1) a
  a + g * (b - a)

/-- The deduplicated decile edges `pd.qcut(xs, q=10, duplicates='drop')`
works with: the 11 quantiles of the non-missing values at probabilities
`0, 0.1, ..., 1`, with duplicate edges dropped (the edge list is
nondecreasing, and `List.dedup` keeps the first occurrence of each). -/
def qcutEdges (xs : List ℚ) : List ℚ :=
  (((List.range 11).map (quantileAt (xs.insertionSort (· ≤ ·))))).dedup

/-- Bin assignment of `pd.cut`-style labelling inside `qcut`: a
`searchsorted` on the left over the edges, values equal to the lowest edge
forced into the first bin (`include_lowest`), and an out-of-range id mapped
to a missing label. -/
def assignBin (edges : List ℚ) (v : ℚ) : Option ℕ :=
  let ids0 := edges.countP (fun e => decide (e < v))
  let ids := if edges.head? = some v then 1 else ids0
  if ids = 0 ∨ ids = edges.length then none else some (ids - 1)

/-- The column transform `pd.qcut(column, q=10, duplicates='drop')`:
each non-missing value is replaced by the index of its bin and missing
values stay missing.  The transform never fails: out-of-range ids are
masked and filled as missing labels (`assignBin` returns `none`), so a
constant column — whose deduplicated edges collapse to one — comes out
all-missing rather than raising. -/
def qcutColumn (vals : List (Option ℚ)) : List (Option ℕ) :=
  vals.map (fun o => o.bind (assignBin (qcutEdges (vals.filterMap id))))

/-- Per-bin statistics after
`grouped.columns = ['Total', 'Bad']; grouped['Good'] = Total - Bad`:
the group key, `Total` (the count of non-missing target cells of the group)
and `Bad` (the sum of the target cells of the group). -/
structure BinStat where
  key : ℚ
  total : ℕ
  bad : ℚ
deriving DecidableEq

/-- The `Good` column of a row of the grouped frame: `Total - Bad`. -/
def BinStat.good (s : BinStat) : ℚ := (s.total : ℚ) - s.bad

/-- One group of `df_iv.groupby(feature)[target].agg(['count', 'sum'])`:
rows whose key cell equals `k`; `count` counts the non-missing target cells,
`sum` adds them (pandas skips missing targets in both aggregations). -/
def groupAgg (keyed : List (Option ℚ × Option ℚ)) (k : ℚ) : BinStat :=
  let rows := (keyed.filter (fun r => r.1 == some k)).filterMap (fun r => r.2)
  { key := k, total := rows.length, bad := rows.sum }

/-- The grouped frame: one `BinStat` per key, keys in the given order. -/
def groupStats (keyed : List (Option ℚ × Option ℚ)) (keys : List ℚ) :
    List BinStat :=
  keys.map (groupAgg keyed)

/-- The group keys of `df_iv.groupby(feature)`: for a `qcut`-produced
categorical column every interval index is a key (pandas keeps unobserved
categories as groups); for a plain column the keys are the distinct
non-missing values in ascending order (pandas sorts groups and drops
missing keys). -/
def calcStats (df : Dataset) (feature target : String) :
    Except Err (List BinStat) :=
  match lookupCol df feature, lookupCol df target with
  | some fc, some tc =>
      if fc.dtype = .float64 ∨ fc.dtype = .int64 then
        let keyed :=
          ((qcutColumn fc.values).map (fun o => o.map (Nat.cast : ℕ → ℚ))).zip
            tc.values
        let m := (qcutEdges (fc.values.filterMap id)).length - 1
        .ok (groupStats keyed ((List.range m).map (Nat.cast : ℕ → ℚ)))
      else
        let keyed := fc.values.zip tc.values
        let keys := ((fc.values.filterMap id).insertionSort (· ≤ ·)).dedup
        .ok (groupStats keyed keys)
  | _, _ => .error .columnNotFound

/-- The scalar `total_good = grouped['Good'].sum()`. -/
def totalGood (l : List BinStat) : ℚ := (l.map BinStat.good).sum

/-- The scalar `total_bad = grouped['Bad'].sum()`. -/
def totalBad (l : List BinStat) : ℚ := (l.map (fun s => s.bad)).sum

/-- The raw distribution columns
`Dist_Good = Good / total_good` and `Dist_Bad = Bad / total_bad`,
with IEEE float division (`0/0` is `nan`, `x/0` is `±inf`). -/
def rawDists (l : List BinStat) : List (XQ × XQ) :=
  l.map (fun s =>
    (XQ.div (.fin s.good) (.fin (totalGood l)),
     XQ.div (.fin s.bad) (.fin (totalBad l))))

/-- The distribution columns after the two zero-substitution lines
`grouped['Dist_Good'].replace(0, 0.0001)` and
`grouped['Dist_Bad'].replace(0, 0.0001)`. -/
def substDists (l : List BinStat) : List (XQ × XQ) :=
  (rawDists l).map (fun p => (replaceZero p.1, replaceZero p.2))

/-- The per-bin `WoE = np.log(Dist_Good / Dist_Bad)` column, computed from
the substituted distributions. -/
def binWoEs {K : Type} (lg : ℚ → K) (l : List BinStat) : List (XV K) :=
  (substDists l).map (fun p => xlog lg (XQ.div p.1 p.2))

/-- One entry of the `IV = (Dist_Good - Dist_Bad) * WoE` column, from the
substituted distributions of its bin.  When the difference is infinite and
the log argument is a positive rational `q` (a case no run of the routine
reaches, since a finite log only arises from finite distributions), the sign
of the product is decided by comparing `q` with `1`, which is the sign of
the real logarithm of `q`. -/
def binContrib {K : Type} [Field K] (lg : ℚ → K) (dg db : XQ) : XV K :=
  match XQ.sub dg db, XQ.div dg db with
  | .nan, _ => .nan
  | .fin a, r =>
      match xlog lg r with
      | .fin w => .fin ((a : K) * w)
      | .pinf => if 0 < a then .pinf else if a < 0 then .ninf else .nan
      | .ninf => if 0 < a then .ninf else if a < 0 then .pinf else .nan
      | .nan => .nan
  | .pinf, r =>
      match r with
      | .fin q =>
          if 1 < q then .pinf
          else if 0 < q ∧ q < 1 then .ninf
          else if q = 0 then .ninf
          else .nan
      | .pinf => .pinf
      | _ => .nan
  | .ninf, r =>
      match r with
      | .fin q =>
          if 1 < q then .ninf
          else if 0 < q ∧ q < 1 then .pinf
          else if q = 0 then .pinf
          else .nan
      | .pinf => .ninf
      | _ => .nan

/-- The per-bin IV contribution column
`grouped['IV'] = (grouped['Dist_Good'] - grouped['Dist_Bad']) * grouped['WoE']`. -/
def binIVs {K : Type} [Field K] (lg : ℚ → K) (l : List BinStat) :
    List (XV K) :=
  (substDists l).map (fun p => binContrib lg p.1 p.2)

/-- The routine `calculate_iv(df, feature, target)` of
`src/feature_engineering.py`, with `np.log` supplied as `lg : ℚ → K`:
select and copy the two columns, `qcut` a `float64`/`int64` feature, group
by the feature, aggregate `Total`/`Bad`/`Good`, form the distribution
columns, substitute zeros, take `WoE` and the per-bin `IV`, and return
`grouped['IV'].sum()`. -/
def calculate_iv (K : Type) [Field K] (lg : ℚ → K) (df : Dataset)
    (feature target : String) : Except Err (XV K) :=
  (calcStats df feature target).map (fun l => nansum (binIVs lg l))

/-- State-passing form of the call: the routine works on the defensive copy
`df_iv = df[[feature, target]].copy()`, so the caller's frame comes back
untouched alongside the result. -/
def calculate_iv_state (K : Type) [Field K] (lg : ℚ → K) (df : Dataset)
    (feature target : String) : Except Err (XV K) × Dataset :=
  (calculate_iv K lg df feature target, df)

/-- Zero-substitution as the specification states it, on a plain rational
distribution value. -/
def spec_subst (q : ℚ) : ℚ := if q = 0 then 1/10000 else q

/-- The Information Value as the specification words it (steps 5-8 of the
spec): per bin, `Dist_Good = Good / total_good` and
`Dist_Bad = Bad / total_bad`, zeros substituted by `0.0001`,
`WoE = ln(Dist_Good / Dist_Bad)`, the contribution
`(Dist_Good - Dist_Bad) * WoE`, and the sum over the bins. -/
def specIV (K : Type) [Field K] (lg : ℚ → K) (l : List BinStat) : K :=
  (l.map (fun s =>
    let dg := spec_subst (s.good / totalGood l)
    let db := spec_subst (s.bad / totalBad l)
    ((dg - db : ℚ) : K) * lg (dg / db))).sum

/-! Concrete datasets used by the witnesses and counterexamples below. -/

/-- Two-bin categorical dataset whose target holds a single class. -/
def df1e : Dataset :=
  ⟨[("f", ⟨.object, [some 4, some 4, some 5]⟩),
    ("t", ⟨.object, [some 1, some 1, some 1]⟩)]⟩

/-- Two-bin categorical dataset with a 0/1 target, one of each class per bin. -/
def df1w : Dataset :=
  ⟨[("f", ⟨.object, [some 1, some 1, some 2, some 2]⟩),
    ("t", ⟨.object, [some 0, some 1, some 1, some 0]⟩)]⟩

/-- The golden scenario of the specification: categorical feature
`[1,1,2,2,3,3,4,4]`, target `[0,0,1,1,0,1,0,1]`. -/
def df2g : Dataset :=
  ⟨[("f", ⟨.object, [some 1, some 1, some 2, some 2,
                     some 3, some 3, some 4, some 4]⟩),
    ("t", ⟨.object, [some 0, some 0, some 1, some 1,
                     some 0, some 1, some 0, some 1]⟩)]⟩

/-- Dataset whose target values lie outside `{0,1}` (sum `2` and `-2`),
making one distribution total zero while per-bin numerators are nonzero. -/
def df3c : Dataset :=
  ⟨[("f", ⟨.object, [some 1, some 2]⟩),
    ("t", ⟨.object, [some 2, some (-2)]⟩)]⟩

/-- `float64` feature with exactly two distinct values, one row each. -/
def df4t : Dataset :=
  ⟨[("f", ⟨.float64, [some 1, some 2]⟩),
    ("t", ⟨.object, [some 0, some 1]⟩)]⟩

/-- `float64` feature with two distinct values, heavily tied. -/
def df4w : Dataset :=
  ⟨[("f", ⟨.float64, [some 1, some 1, some 1, some 1, some 1,
                      some 9, some 9, some 9, some 9, some 9]⟩),
    ("t", ⟨.object, [some 0, some 1, some 0, some 1, some 0,
                     some 1, some 0, some 1, some 0, some 1]⟩)]⟩

/-- Dataset with two rows whose feature cell is missing; those rows carry
two of the three `Bad` outcomes. -/
def df5c : Dataset :=
  ⟨[("f", ⟨.object, [some 1, some 1, none, none]⟩),
    ("t", ⟨.object, [some 0, some 1, some 1, some 1]⟩)]⟩

/-- Single-class dataset: every target is `1` (all Bad). -/
def df6c : Dataset :=
  ⟨[("f", ⟨.object, [some 1, some 1, some 2, some 2]⟩),
    ("t", ⟨.object, [some 1, some 1, some 1, some 1]⟩)]⟩

/-- Single-class dataset: every target is `0` (all Good). -/
def df6w : Dataset :=
  ⟨[("f", ⟨.object, [some 5, some 5]⟩),
    ("t", ⟨.object, [some 0, some 0]⟩)]⟩

/-- Dataset holding only a column named `f`. -/
def df7w : Dataset :=
  ⟨[("f", ⟨.object, [some 1]⟩)]⟩

/-- Constant `int64` feature with a two-class target. -/
def df8c : Dataset :=
  ⟨[("f", ⟨.int64, [some 7, some 7, some 7, some 7]⟩),
    ("t", ⟨.object, [some 0, some 1, some 1, some 0]⟩)]⟩

/-- Constant categorical feature with a two-class target. -/
def df8w : Dataset :=
  ⟨[("f", ⟨.object, [some 7, some 7, some 7, some 7]⟩),
    ("t", ⟨.object, [some 0, some 1, some 1, some 0]⟩)]⟩

/-- Two-bin categorical dataset with both classes in every bin. -/
def df9w : Dataset :=
  ⟨[("f", ⟨.object, [some 3, some 3, some 4, some 4, some 4]⟩),
    ("t", ⟨.object, [some 0, some 1, some 0, some 1, some 1]⟩)]⟩

/-- Small two-column dataset. -/
def df10w : Dataset :=
  ⟨[("f", ⟨.object, [some 1, some 2]⟩),
    ("t", ⟨.object, [some 0, some 1]⟩)]⟩

/-- The same two columns as `df10w` plus an unrelated third column. -/
def df10x : Dataset :=
  ⟨[("f", ⟨.object, [some 1, some 2]⟩),
    ("t", ⟨.object, [some 0, some 1]⟩),
    ("extra", ⟨.float64, [some 3, some 4]⟩)]⟩

/-! Helper lemmas about the extended-value arithmetic. -/

theorem XQ.sub_nan_left (x : XQ) : XQ.sub .nan x = .nan := by
  cases x <;> rfl

theorem XQ.sub_nan_right (x : XQ) : XQ.sub x .nan = .nan := by
  cases x <;> rfl

theorem binContrib_nan_left {K : Type} [Field K] (lg : ℚ → K) (db : XQ) :
    binContrib lg .nan db = .nan := by
  cases db <;> rfl

theorem binContrib_nan_right {K : Type} [Field K] (lg : ℚ → K) (dg : XQ) :
    binContrib lg dg .nan = .nan := by
  cases dg <;> rfl

theorem XV.isNan_fin {K : Type} (x : K) : (XV.fin x).isNan = false := rfl

theorem XV.add_fin {K : Type} [Field K] (a b : K) :
    XV.add (.fin a) (.fin b) = .fin (a + b) := rfl

theorem foldl_add_fin {K : Type} [Field K] (l : List K) (c : K) :
    (l.map XV.fin).foldl XV.add (.fin c) = .fin (c + l.sum) := by
  induction l generalizing c with
  | nil => simp [nansum]
  | cons x xs ih =>
      simp only [List.map_cons, List.foldl_cons, XV.add_fin, ih, List.sum_cons]
      rw [add_assoc]

theorem nansum_map_fin {K : Type} [Field K] (l : List K) :
    nansum (l.map XV.fin) = .fin l.sum := by
  unfold nansum
  rw [List.filter_eq_self.mpr, foldl_add_fin, zero_add]
  intro a ha
  rcases List.mem_map.mp ha with ⟨x, _, rfl⟩
  simp [XV.isNan_fin]

theorem nansum_all_nan {K : Type} [Field K] (l : List (XV K))
    (h : ∀ x ∈ l, x = .nan) : nansum l = .fin 0 := by
  unfold nansum
  rw [List.filter_eq_nil_iff.mpr, List.foldl_nil]
  intro a ha
  rw [h a ha]
  simp [XV.isNan]

theorem replaceZero_fin (q : ℚ) : replaceZero (.fin q) = .fin (spec_subst q) := by
  show (if q = 0 then XQ.fin (1/10000) else XQ.fin q) = .fin (spec_subst q)
  unfold spec_subst
  split <;> rfl

theorem spec_subst_pos (q : ℚ) (h : 0 ≤ q) : 0 < spec_subst q := by
  unfold spec_subst
  split
  · norm_num
  · exact lt_of_le_of_ne h (Ne.symm (by assumption))

theorem XQ.div_fin_fin (a b : ℚ) (hb : b ≠ 0) :
    XQ.div (.fin a) (.fin b) = .fin (a / b) := by
  simp [XQ.div, hb]

theorem binContrib_fin_pos {K : Type} [Field K] (lg : ℚ → K) (a b : ℚ)
    (ha : 0 < a) (hb : 0 < b) :
    binContrib lg (.fin a) (.fin b) = .fin (((a - b : ℚ) : K) * lg (a / b)) := by
  have hq : (0:ℚ) < a / b := div_pos ha hb
  unfold binContrib
  rw [show XQ.sub (.fin a) (.fin b) = .fin (a - b) from rfl,
      XQ.div_fin_fin a b (ne_of_gt hb)]
  simp [xlog, hq]

/-! Evaluation lemmas for the two branches of `calcStats`. -/

theorem calcStats_object (df : Dataset) (f t : String) (fc tc : Column)
    (hf : lookupCol df f = some fc) (ht : lookupCol df t = some tc)
    (hd : fc.dtype = .object) :
    calcStats df f t = .ok (groupStats (fc.values.zip tc.values)
      (((fc.values.filterMap id).insertionSort (· ≤ ·)).dedup)) := by
  have hnot : ¬(fc.dtype = Dtype.float64 ∨ fc.dtype = Dtype.int64) := by
    rw [hd]
    simp
  simp only [calcStats, hf, ht]
  rw [if_neg hnot]

theorem calcStats_numeric (df : Dataset) (f t : String) (fc tc : Column)
    (hf : lookupCol df f = some fc) (ht : lookupCol df t = some tc)
    (hd : fc.dtype = .float64 ∨ fc.dtype = .int64) :
    calcStats df f t = .ok (groupStats
      (((qcutColumn fc.values).map (fun o => o.map (Nat.cast : ℕ → ℚ))).zip
        tc.values)
      ((List.range ((qcutEdges (fc.values.filterMap id)).length - 1)).map
        (Nat.cast : ℕ → ℚ))) := by
  simp only [calcStats, hf, ht]
  rw [if_pos hd]

/-! The finite pipeline equals the formula of the specification. -/

theorem binIVs_eq_spec {K : Type} [Field K] (lg : ℚ → K) (l : List BinStat)
    (hb : ∀ s ∈ l, 0 ≤ s.bad ∧ s.bad ≤ (s.total : ℚ))
    (hg : 0 < totalGood l) (hd : 0 < totalBad l) :
    binIVs lg l = (l.map (fun s =>
      let dg := spec_subst (s.good / totalGood l)
      let db := spec_subst (s.bad / totalBad l)
      ((dg - db : ℚ) : K) * lg (dg / db))).map XV.fin := by
  unfold binIVs substDists rawDists
  rw [List.map_map, List.map_map, List.map_map]
  refine List.map_congr_left (fun s hs => ?_)
  have hgood : (0:ℚ) ≤ s.good := by
    have := (hb s hs).2
    unfold BinStat.good
    linarith
  have hbad : (0:ℚ) ≤ s.bad := (hb s hs).1
  have hdg : (0:ℚ) ≤ s.good / totalGood l := div_nonneg hgood (le_of_lt hg)
  have hdb : (0:ℚ) ≤ s.bad / totalBad l := div_nonneg hbad (le_of_lt hd)
  simp only [Function.comp]
  rw [XQ.div_fin_fin _ _ (ne_of_gt hg), XQ.div_fin_fin _ _ (ne_of_gt hd),
      replaceZero_fin, replaceZero_fin,
      binContrib_fin_pos lg _ _ (spec_subst_pos _ hdg) (spec_subst_pos _ hdb)]

theorem calculate_iv_eq_specIV {K : Type} [Field K] (lg : ℚ → K)
    (df : Dataset) (f t : String) (l : List BinStat)
    (h : calcStats df f t = .ok l)
    (hb : ∀ s ∈ l, 0 ≤ s.bad ∧ s.bad ≤ (s.total : ℚ))
    (hg : 0 < totalGood l) (hd : 0 < totalBad l) :
    calculate_iv K lg df f t = .ok (.fin (specIV K lg l)) := by
  unfold calculate_iv
  rw [h]
  show Except.ok (nansum (binIVs lg l)) = _
  rw [binIVs_eq_spec lg l hb hg hd, nansum_map_fin]
  rfl

/-! Quantile edges of constant columns. -/

theorem insertionSort_replicate (n : ℕ) (c : ℚ) :
    (List.replicate n c).insertionSort (· ≤ ·) = List.replicate n c :=
  List.Sorted.insertionSort_eq (List.pairwise_replicate.mpr (Or.inr le_rfl))

theorem dedup_replicate_q (n : ℕ) (c : ℚ) (hn : n ≠ 0) :
    (List.replicate n c).dedup = [c] := by
  induction n with
  | zero => exact absurd rfl hn
  | succ m ih =>
      rcases Nat.eq_zero_or_pos m with hm | hm
      · subst hm
        rfl
      · rw [List.replicate_succ, List.dedup_cons_of_mem
          (List.mem_replicate.mpr ⟨Nat.pos_iff_ne_zero.mp hm, rfl⟩)]
        exact ih (Nat.pos_iff_ne_zero.mp hm)

theorem quantileAt_replicate (n i : ℕ) (c : ℚ) (hn : n ≠ 0) (hi : i ≤ 10) :
    quantileAt (List.replicate n c) i = c := by
  simp only [quantileAt, List.length_replicate]
  set pos : ℚ := (i : ℚ) * ((n : ℚ) - 1) / 10 with hpos
  set j : ℕ := (Int.floor pos).toNat with hj
  have hn1 : 1 ≤ n := Nat.one_le_iff_ne_zero.mpr hn
  have hjn : j < n := by
    have h1 : pos ≤ (n : ℚ) - 1 := by
      rw [hpos, div_le_iff₀ (by norm_num : (0:ℚ) < 10)]
      have hc : (1:ℚ) ≤ (n : ℚ) := by exact_mod_cast hn1
      have hi10 : (i : ℚ) ≤ 10 := by exact_mod_cast hi
      nlinarith
    have h2 : Int.floor pos ≤ ((n - 1 : ℕ) : ℤ) := by
      have : ((n : ℚ) - 1) = (((n - 1 : ℕ) : ℤ) : ℚ) := by
        push_cast [hn1]
        ring
      rw [this] at h1
      calc Int.floor pos ≤ Int.floor ((((n - 1 : ℕ) : ℤ) : ℚ)) :=
            Int.floor_le_floor h1
        _ = ((n - 1 : ℕ) : ℤ) := Int.floor_intCast _
    have h3 : j ≤ n - 1 := Int.toNat_le.mpr h2
    omega
  have ha : (List.replicate n c).getD j 0 = c := by
    rw [List.getD_eq_getElem _ _ (by simpa using hjn)]
    simp
  have hb : (List.replicate n c).getD (j + 1) c = c := by
    rcases Nat.lt_or_ge (j + 1) n with h | h
    · rw [List.getD_eq_getElem _ _ (by simpa using h)]
      simp
    · exact List.getD_eq_default _ _ (by simpa using h)
  rw [ha, hb]
  ring

theorem qcutEdges_replicate (n : ℕ) (c : ℚ) (hn : n ≠ 0) :
    qcutEdges (List.replicate n c) = [c] := by
  unfold qcutEdges
  rw [insertionSort_replicate]
  have hmap : (List.range 11).map (quantileAt (List.replicate n c)) =
      List.replicate 11 c := by
    refine List.eq_replicate_iff.mpr ⟨by simp, fun b hb => ?_⟩
    rcases List.mem_map.mp hb with ⟨i, hi, rfl⟩
    exact quantileAt_replicate n i c hn (Nat.lt_succ_iff.mp (List.mem_range.mp hi))
  rw [hmap, dedup_replicate_q 11 c (by norm_num)]

/-- Present cells of a constant all-present column. -/
theorem filterMap_id_replicate_some (n : ℕ) (c : ℚ) :
    (List.replicate n (some c)).filterMap id = List.replicate n c := by
  induction n with
  | zero => rfl
  | succ m ih =>
      simp only [List.replicate_succ, List.filterMap_cons, id, ih]

/-- A constant `float64`/`int64` feature produces an empty grouped frame:
the deduplicated decile edges collapse to one, every label comes out
missing, and the groupby keeps zero interval categories. -/
theorem calcStats_constant_numeric (df : Dataset) (f t : String)
    (fc tc : Column) (n : ℕ) (c : ℚ) (hn : n ≠ 0)
    (hf : lookupCol df f = some fc) (ht : lookupCol df t = some tc)
    (hd : fc.dtype = .float64 ∨ fc.dtype = .int64)
    (hv : fc.values = List.replicate n (some c)) :
    calcStats df f t = .ok [] := by
  rw [calcStats_numeric df f t fc tc hf ht hd]
  have hfm : fc.values.filterMap id = List.replicate n c := by
    rw [hv]; exact filterMap_id_replicate_some n c
  have hedges : qcutEdges (fc.values.filterMap id) = [c] := by
    rw [hfm]; exact qcutEdges_replicate n c hn
  rw [hedges]
  simp [groupStats]

/-! Claim theorems. -/

/-- C7: for every dataset and every feature or target name absent from its
columns, `calculate_iv` raises a `ColumnNotFound` error surfaced to the
caller (the `KeyError` of `df[[feature, target]]`), and never returns a
silent `NaN`, empty, or defaulted result. -/
theorem missing_column_raises (K : Type) [Field K] (lg : ℚ → K)
    (df : Dataset) (feature target : String)
    (h : lookupCol df feature = none ∨ lookupCol df target = none) :
    calculate_iv K lg df feature target = .error .columnNotFound := by
  unfold calculate_iv calcStats
  rcases h with h | h
  · rw [h]
    cases lookupCol df target <;> rfl
  · rw [h]
    cases lookupCol df feature <;> rfl

/-- Witness for C7: on a dataset holding only a column `f`, asking for the
absent target column `g` yields the `ColumnNotFound` error. -/
theorem missing_column_raises_witness :
    (lookupCol df7w "f" = none ∨ lookupCol df7w "g" = none) ∧
    calculate_iv ℝ (fun q : ℚ => Real.log q) df7w "f" "g" =
      .error .columnNotFound :=
  ⟨Or.inr rfl,
   missing_column_raises ℝ (fun q : ℚ => Real.log q) df7w "f" "g" (Or.inr rfl)⟩

/-- C10: `calculate_iv` is pure and leaves the caller's dataset unchanged —
the state-passing form returns the input frame untouched (the routine works
on the defensive copy `df_iv`), and the result depends only on the two
columns it looks up, not on the rest of the dataset. -/
theorem iv_pure_frame (K : Type) [Field K] (lg : ℚ → K) (df : Dataset)
    (feature target : String) :
    (calculate_iv_state K lg df feature target).2 = df ∧
    (calculate_iv_state K lg df feature target).1 =
      calculate_iv K lg df feature target ∧
    ∀ df2 : Dataset, lookupCol df feature = lookupCol df2 feature →
      lookupCol df target = lookupCol df2 target →
      calculate_iv K lg df feature target =
        calculate_iv K lg df2 feature target := by
  refine ⟨rfl, rfl, fun df2 h1 h2 => ?_⟩
  unfold calculate_iv calcStats
  rw [h1, h2]

/-- Witness for C10: on a concrete dataset the frame comes back unchanged,
and adding an unrelated third column does not change the result. -/
theorem iv_pure_frame_witness :
    (calculate_iv_state ℝ (fun q : ℚ => Real.log q) df10w "f" "t").2 = df10w ∧
    calculate_iv ℝ (fun q : ℚ => Real.log q) df10w "f" "t" =
      calculate_iv ℝ (fun q : ℚ => Real.log q) df10x "f" "t" :=
  ⟨(iv_pure_frame ℝ (fun q : ℚ => Real.log q) df10w "f" "t").1,
   (iv_pure_frame ℝ (fun q : ℚ => Real.log q) df10w "f" "t").2.2 df10x rfl rfl⟩

/-- C1 (amended): whenever the two columns are present with grouped bin
statistics `l`, every bin's `Bad` lies between `0` and its `Total`
(as holds for a 0/1 target), and both class totals are positive,
`calculate_iv` returns exactly the sum over the bins of
`(Dist_Good - Dist_Bad) * ln(Dist_Good / Dist_Bad)` with
`Dist_Good = Good / total_good`, `Dist_Bad = Bad / total_bad`,
`Good = Total - Bad`, and zero distributions substituted by `0.0001` —
the formula `specIV`. -/
theorem iv_returns_spec_sum (K : Type) [Field K] (lg : ℚ → K)
    (df : Dataset) (feature target : String) (l : List BinStat)
    (h : calcStats df feature target = .ok l)
    (hb : ∀ s ∈ l, 0 ≤ s.bad ∧ s.bad ≤ (s.total : ℚ))
    (hg : 0 < totalGood l) (hd : 0 < totalBad l) :
    calculate_iv K lg df feature target = .ok (.fin (specIV K lg l)) :=
  calculate_iv_eq_specIV lg df feature target l h hb hg hd

/-- Witness for C1: a concrete two-bin categorical dataset with a 0/1
target where the returned value is exactly `specIV` of its bin
statistics. -/
theorem iv_returns_spec_sum_witness :
    calcStats df1w "f" "t" = .ok [⟨1, 2, 1⟩, ⟨2, 2, 1⟩] ∧
    calculate_iv ℝ (fun q : ℚ => Real.log q) df1w "f" "t" =
      .ok (.fin (specIV ℝ (fun q : ℚ => Real.log q) [⟨1, 2, 1⟩, ⟨2, 2, 1⟩])) := by
  have hst : calcStats df1w "f" "t" = .ok [⟨1, 2, 1⟩, ⟨2, 2, 1⟩] := by
    rw [calcStats_object df1w "f" "t" ⟨.object, [some 1, some 1, some 2, some 2]⟩
      ⟨.object, [some 0, some 1, some 1, some 0]⟩ rfl rfl rfl]
    norm_num [groupStats, groupAgg, List.insertionSort, List.orderedInsert,
      List.dedup, List.pwFilter, List.filterMap, List.filter, List.zip,
      List.zipWith]
  exact ⟨hst, iv_returns_spec_sum ℝ (fun q : ℚ => Real.log q) df1w "f" "t" _
    hst (by decide) (by norm_num [totalGood, BinStat.good])
    (by norm_num [totalBad])⟩

/-- Counterexample to C1 as stated: on `df1e` both columns are present and
the grouping succeeds with two bins, yet what comes back is not the sum of
the per-bin IV contributions — the single-class target makes
`total_good = 0`, every `Dist_Good` is `0/0 = NaN`, every per-bin IV
contribution is `NaN`, a left-to-right IEEE sum of that column is `NaN`,
but `calculate_iv` returns the finite `0.0` because `Series.sum()` skips
the `NaN` entries. -/
theorem iv_sum_skips_nan_contributions :
    calcStats df1e "f" "t" = .ok [⟨4, 2, 2⟩, ⟨5, 1, 1⟩] ∧
    binIVs (fun q : ℚ => Real.log q) [⟨4, 2, 2⟩, ⟨5, 1, 1⟩] =
      [XV.nan, XV.nan] ∧
    (binIVs (fun q : ℚ => Real.log q) [⟨4, 2, 2⟩, ⟨5, 1, 1⟩]).foldl
      XV.add (.fin 0) = XV.nan ∧
    calculate_iv ℝ (fun q : ℚ => Real.log q) df1e "f" "t" = .ok (.fin 0) ∧
    XV.fin (0:ℝ) ≠ XV.nan := by
  have hst : calcStats df1e "f" "t" = .ok [⟨4, 2, 2⟩, ⟨5, 1, 1⟩] := by
    rw [calcStats_object df1e "f" "t" ⟨.object, [some 4, some 4, some 5]⟩
      ⟨.object, [some 1, some 1, some 1]⟩ rfl rfl rfl]
    norm_num [groupStats, groupAgg, List.insertionSort, List.orderedInsert,
      List.dedup, List.pwFilter, List.filterMap, List.filter, List.zip,
      List.zipWith]
  have hsub : substDists [⟨4, 2, 2⟩, ⟨5, 1, 1⟩] =
      [(XQ.nan, XQ.fin (2/3)), (XQ.nan, XQ.fin (1/3))] := by
    norm_num [substDists, rawDists, totalGood, totalBad, BinStat.good,
      XQ.div, replaceZero]
  have hbin : binIVs (fun q : ℚ => Real.log q) [⟨4, 2, 2⟩, ⟨5, 1, 1⟩] =
      [XV.nan, XV.nan] := by
    unfold binIVs
    rw [hsub]
    simp only [List.map_cons, List.map_nil]
    rw [binContrib_nan_left, binContrib_nan_left]
  refine ⟨hst, hbin, ?_, ?_, by simp⟩
  · rw [hbin]
    rfl
  · unfold calculate_iv
    rw [hst]
    show Except.ok
      (nansum (binIVs (fun q : ℚ => Real.log q) [⟨4, 2, 2⟩, ⟨5, 1, 1⟩])) = _
    rw [hbin]
    rfl

/-- C6 (amended): when grouping succeeds and the target is single-class
(every bin's `Bad` equals its `Total`, or every bin's `Bad` is zero), the
routine does not raise: the zero class total makes every distribution a
`0/0 = NaN`, every per-bin IV contribution is `NaN`, and the `NaN`-skipping
sum returns the finite value `0.0` — not an infinite or `NaN` result. -/
theorem degenerate_target_returns_zero (K : Type) [Field K] (lg : ℚ → K)
    (df : Dataset) (feature target : String) (l : List BinStat)
    (h : calcStats df feature target = .ok l)
    (hcls : (∀ s ∈ l, s.bad = (s.total : ℚ)) ∨ (∀ s ∈ l, s.bad = 0)) :
    calculate_iv K lg df feature target = .ok (.fin 0) := by
  unfold calculate_iv
  rw [h]
  show Except.ok (nansum (binIVs lg l)) = _
  rw [nansum_all_nan]
  intro x hx
  unfold binIVs substDists rawDists at hx
  rw [List.map_map, List.map_map] at hx
  rcases List.mem_map.mp hx with ⟨s, hs, rfl⟩
  simp only [Function.comp]
  rcases hcls with hall | hall
  · have hg0 : s.good = 0 := by
      unfold BinStat.good
      rw [hall s hs]
      ring
    have htg : totalGood l = 0 := by
      unfold totalGood
      apply List.sum_eq_zero
      intro a ha
      rcases List.mem_map.mp ha with ⟨u, hu, rfl⟩
      unfold BinStat.good
      rw [hall u hu]
      ring
    rw [hg0, htg]
    rw [show XQ.div (.fin 0) (.fin 0) = .nan by simp [XQ.div]]
    rw [show replaceZero XQ.nan = XQ.nan from rfl]
    exact binContrib_nan_left lg _
  · have htb : totalBad l = 0 := by
      unfold totalBad
      apply List.sum_eq_zero
      intro a ha
      rcases List.mem_map.mp ha with ⟨u, hu, rfl⟩
      exact hall u hu
    rw [hall s hs, htb]
    rw [show XQ.div (.fin 0) (.fin 0) = .nan by simp [XQ.div]]
    rw [show replaceZero XQ.nan = XQ.nan from rfl]
    exact binContrib_nan_right lg _

/-- Witness for C6 (amended): an all-Good dataset (every target `0`) comes
back as the finite value `0`. -/
theorem degenerate_target_returns_zero_witness :
    calcStats df6w "f" "t" = .ok [⟨5, 2, 0⟩] ∧
    calculate_iv ℝ (fun q : ℚ => Real.log q) df6w "f" "t" = .ok (.fin 0) := by
  have hst : calcStats df6w "f" "t" = .ok [⟨5, 2, 0⟩] := by
    rw [calcStats_object df6w "f" "t" ⟨.object, [some 5, some 5]⟩
      ⟨.object, [some 0, some 0]⟩ rfl rfl rfl]
    norm_num [groupStats, groupAgg, List.insertionSort, List.orderedInsert,
      List.dedup, List.pwFilter, List.filterMap, List.filter, List.zip,
      List.zipWith]
  exact ⟨hst, degenerate_target_returns_zero ℝ (fun q : ℚ => Real.log q)
    df6w "f" "t" [⟨5, 2, 0⟩] hst (Or.inr (by decide))⟩

/-- Counterexample to C6 as stated: on an all-Bad dataset the routine does
not propagate an infinite or `NaN` result to the caller — it returns the
finite value `0.0` (the `NaN` per-bin contributions are silently skipped by
the sum). -/
theorem degenerate_target_not_nan :
    calculate_iv ℝ (fun q : ℚ => Real.log q) df6c "f" "t" = .ok (.fin 0) ∧
    XV.fin (0:ℝ) ≠ XV.nan ∧ XV.fin (0:ℝ) ≠ XV.pinf ∧ XV.fin (0:ℝ) ≠ XV.ninf := by
  refine ⟨?_, by simp, by simp, by simp⟩
  have hst : calcStats df6c "f" "t" = .ok [⟨1, 2, 2⟩, ⟨2, 2, 2⟩] := by
    rw [calcStats_object df6c "f" "t"
      ⟨.object, [some 1, some 1, some 2, some 2]⟩
      ⟨.object, [some 1, some 1, some 1, some 1]⟩ rfl rfl rfl]
    norm_num [groupStats, groupAgg, List.insertionSort, List.orderedInsert,
      List.dedup, List.pwFilter, List.filterMap, List.filter, List.zip,
      List.zipWith]
  unfold calculate_iv
  rw [hst]
  show Except.ok (nansum (binIVs (fun q : ℚ => Real.log q) [⟨1, 2, 2⟩, ⟨2, 2, 2⟩])) = _
  rw [nansum_all_nan]
  intro x hx
  have hsub : substDists [⟨1, 2, 2⟩, ⟨2, 2, 2⟩] =
      [(XQ.nan, XQ.fin (1/2)), (XQ.nan, XQ.fin (1/2))] := by
    norm_num [substDists, rawDists, totalGood, totalBad, BinStat.good,
      XQ.div, replaceZero]
  unfold binIVs at hx
  rw [hsub] at hx
  simp only [List.map_cons, List.map_nil, List.mem_cons,
    List.not_mem_nil, or_false] at hx
  rcases hx with rfl | rfl
  · exact binContrib_nan_left (fun q : ℚ => Real.log q) _
  · exact binContrib_nan_left (fun q : ℚ => Real.log q) _

/-- C5 (amended): rows whose feature cell is missing are excluded from the
grouping and from every bin statistic — prepending such a row changes no
group, and filtering such rows away changes no group either (pandas
`groupby` drops missing keys). -/
theorem missing_feature_rows_dropped (keyed : List (Option ℚ × Option ℚ))
    (keys : List ℚ) (x : Option ℚ) :
    groupStats (((none : Option ℚ), x) :: keyed) keys = groupStats keyed keys ∧
    groupStats (keyed.filter (fun r => !r.1.isNone)) keys =
      groupStats keyed keys := by
  constructor
  · unfold groupStats groupAgg
    refine List.map_congr_left (fun k hk => ?_)
    rw [List.filter_cons_of_neg]
    simp
  · unfold groupStats groupAgg
    refine List.map_congr_left (fun k hk => ?_)
    rw [List.filter_filter]
    have hf : List.filter (fun a => a.1 == some k && !a.1.isNone) keyed =
        List.filter (fun r => r.1 == some k) keyed := by
      apply List.filter_congr
      intro r hr
      cases h1 : r.1 <;> simp [h1]
    rw [hf]

/-- Counterexample to C5 as stated: in `df5c` two of the four rows have a
missing feature cell and carry two of the three `Bad` outcomes, yet the
grouped statistics hold a single bin with `Total = 2` and `Bad = 1` — the
missing rows form no bin of their own and are not counted in any bin
statistic. -/
theorem missing_rows_not_binned :
    calcStats df5c "f" "t" = .ok [⟨1, 2, 1⟩] ∧
    totalBad [⟨(1:ℚ), 2, (1:ℚ)⟩] = 1 ∧
    ([⟨(1:ℚ), 2, (1:ℚ)⟩] : List BinStat).length = 1 := by
  refine ⟨?_, by norm_num [totalBad], rfl⟩
  rw [calcStats_object df5c "f" "t"
    ⟨.object, [some 1, some 1, none, none]⟩
    ⟨.object, [some 0, some 1, some 1, some 1]⟩ rfl rfl rfl]
  norm_num [groupStats, groupAgg, List.insertionSort, List.orderedInsert,
    List.dedup, List.pwFilter, List.filterMap, List.filter, List.zip,
    List.zipWith]

/-- Zero substitution in `if`-form: exactly-zero entries become `1/10000`,
all other entries are untouched. -/
theorem replaceZero_eq_ite (x : XQ) :
    replaceZero x = if x = .fin 0 then .fin (1/10000) else x := by
  cases x with
  | fin q =>
      by_cases h : q = 0
      · subst h
        simp [replaceZero]
      · simp [replaceZero, h]
  | pinf => rfl
  | ninf => rfl
  | nan => rfl

/-- The substituted value is never the exact zero again. -/
theorem replaceZero_ne_zero (x : XQ) : replaceZero x ≠ .fin 0 := by
  cases x with
  | fin q =>
      by_cases h : q = 0 <;> simp [replaceZero, h]
  | pinf => simp [replaceZero]
  | ninf => simp [replaceZero]
  | nan => simp [replaceZero]

/-- C3 (amended): the two `replace(0, 0.0001)` lines turn exactly the
exactly-zero distribution entries into the exact constant `0.0001` and leave
every other entry unchanged, and no substituted entry is zero; moreover, for
bin statistics of a 0/1 target with both class totals positive (the spec's
intended domain) no bin's WoE is `log(0) = -inf`.  (With unvalidated targets
outside `{0,1}` the code can still produce `log(0)` — see the
counterexample.) -/
theorem zero_substitution_policy {K : Type} [Field K] (lg : ℚ → K)
    (l : List BinStat) :
    substDists l = (rawDists l).map (fun p =>
      (if p.1 = .fin 0 then .fin (1/10000) else p.1,
       if p.2 = .fin 0 then .fin (1/10000) else p.2)) ∧
    (∀ p ∈ substDists l, p.1 ≠ XQ.fin 0 ∧ p.2 ≠ XQ.fin 0) ∧
    ((∀ s ∈ l, 0 ≤ s.bad ∧ s.bad ≤ (s.total : ℚ)) → 0 < totalGood l →
      0 < totalBad l → ∀ w ∈ binWoEs lg l, w ≠ XV.ninf) := by
  refine ⟨?_, ?_, ?_⟩
  · unfold substDists
    refine List.map_congr_left (fun p hp => ?_)
    rw [replaceZero_eq_ite, replaceZero_eq_ite]
  · intro p hp
    unfold substDists at hp
    rcases List.mem_map.mp hp with ⟨q, hq, rfl⟩
    exact ⟨replaceZero_ne_zero _, replaceZero_ne_zero _⟩
  · intro hb hg hd w hw
    unfold binWoEs substDists rawDists at hw
    rw [List.map_map, List.map_map] at hw
    rcases List.mem_map.mp hw with ⟨s, hs, rfl⟩
    simp only [Function.comp]
    have hgood : (0:ℚ) ≤ s.good := by
      have := (hb s hs).2
      unfold BinStat.good
      linarith
    have hdg : (0:ℚ) ≤ s.good / totalGood l := div_nonneg hgood (le_of_lt hg)
    have hdb : (0:ℚ) ≤ s.bad / totalBad l :=
      div_nonneg (hb s hs).1 (le_of_lt hd)
    rw [XQ.div_fin_fin _ _ (ne_of_gt hg), XQ.div_fin_fin _ _ (ne_of_gt hd),
        replaceZero_fin, replaceZero_fin,
        XQ.div_fin_fin _ _ (ne_of_gt (spec_subst_pos _ hdb))]
    have hq : (0:ℚ) < spec_subst (s.good / totalGood l) /
        spec_subst (s.bad / totalBad l) :=
      div_pos (spec_subst_pos _ hdg) (spec_subst_pos _ hdb)
    simp [xlog, hq]

/-- Witness for C3 (amended): the policy conclusions at the concrete bin
statistics of a balanced two-bin dataset. -/
theorem zero_substitution_policy_witness :
    substDists [(⟨1, 2, 1⟩ : BinStat), ⟨2, 2, 1⟩] =
      (rawDists [(⟨1, 2, 1⟩ : BinStat), ⟨2, 2, 1⟩]).map (fun p =>
        (if p.1 = .fin 0 then .fin (1/10000) else p.1,
         if p.2 = .fin 0 then .fin (1/10000) else p.2)) ∧
    (∀ p ∈ substDists [(⟨1, 2, 1⟩ : BinStat), ⟨2, 2, 1⟩],
      p.1 ≠ XQ.fin 0 ∧ p.2 ≠ XQ.fin 0) ∧
    (∀ w ∈ binWoEs (fun q : ℚ => Real.log q) [(⟨1, 2, 1⟩ : BinStat), ⟨2, 2, 1⟩],
      w ≠ XV.ninf) :=
  ⟨(zero_substitution_policy (fun q : ℚ => Real.log q) _).1,
   (zero_substitution_policy (fun q : ℚ => Real.log q) _).2.1,
   (zero_substitution_policy (fun q : ℚ => Real.log q) _).2.2 (by decide)
     (by norm_num [totalGood, BinStat.good]) (by norm_num [totalBad])⟩

/-- Counterexample to C3 as stated: with target values `2` and `-2`
(unvalidated by the routine), `total_bad = 0` while the per-bin `Bad` values
are nonzero, the distributions become `±inf` without being zero-substituted,
the WoE ratio becomes an exact `0`, and `np.log` produces `log(0) = -inf`
in the WoE column. -/
theorem log_zero_produced :
    calcStats df3c "f" "t" = .ok [⟨1, 1, 2⟩, ⟨2, 1, -2⟩] ∧
    XV.ninf ∈ binWoEs (fun q : ℚ => Real.log q) [⟨1, 1, 2⟩, ⟨2, 1, -2⟩] := by
  constructor
  · rw [calcStats_object df3c "f" "t" ⟨.object, [some 1, some 2]⟩
      ⟨.object, [some 2, some (-2)]⟩ rfl rfl rfl]
    norm_num [groupStats, groupAgg, List.insertionSort, List.orderedInsert,
      List.dedup, List.pwFilter, List.filterMap, List.filter, List.zip,
      List.zipWith]
  · have hsub : substDists [⟨1, 1, 2⟩, ⟨2, 1, -2⟩] =
        [(XQ.fin (-1/2), XQ.pinf), (XQ.fin (3/2), XQ.ninf)] := by
      norm_num [substDists, rawDists, totalGood, totalBad, BinStat.good,
        XQ.div, replaceZero]
    unfold binWoEs
    rw [hsub]
    simp only [List.map_cons, List.map_nil]
    have h1 : xlog (fun q : ℚ => Real.log q) (XQ.div (XQ.fin (-1/2)) XQ.pinf) =
        XV.ninf := by
      norm_num [XQ.div, xlog]
    rw [h1]
    exact List.mem_cons_self _ _

/-- Target cells of the rows of a constant-key frame. -/
theorem filterMap_snd_zip_replicate (x : Option ℚ) (tv : List (Option ℚ)) :
    List.filterMap (fun r => r.2) ((List.replicate tv.length x).zip tv) =
      tv.filterMap id := by
  induction tv with
  | nil => rfl
  | cons y ys ih =>
      simp only [List.length_cons, List.replicate_succ, List.zip_cons_cons,
        List.filterMap_cons, ih]
      cases y <;> rfl

/-- The single group of a constant-key frame aggregates all rows. -/
theorem groupAgg_zip_replicate (c : ℚ) (tv : List (Option ℚ)) :
    groupAgg ((List.replicate tv.length (some c)).zip tv) c =
      ⟨c, (tv.filterMap id).length, (tv.filterMap id).sum⟩ := by
  unfold groupAgg
  have hfe : ((List.replicate tv.length (some c)).zip tv).filter
      (fun r => r.1 == some c) = (List.replicate tv.length (some c)).zip tv := by
    apply List.filter_eq_self.mpr
    intro a ha
    rcases a with ⟨a1, a2⟩
    have hmem := (List.of_mem_zip ha).1
    rw [List.eq_of_mem_replicate hmem]
    simp
  rw [hfe, filterMap_snd_zip_replicate]

/-- A 0/1-valued list has a nonnegative sum. -/
theorem binary_sum_nonneg (l : List ℚ) (hb : ∀ q ∈ l, q = 0 ∨ q = 1) :
    0 ≤ l.sum :=
  List.sum_nonneg (fun q hq => by rcases hb q hq with rfl | rfl <;> norm_num)

/-- A 0/1-valued list containing a `1` has a positive sum. -/
theorem binary_sum_pos (l : List ℚ) (hb : ∀ q ∈ l, q = 0 ∨ q = 1)
    (h1 : (1:ℚ) ∈ l) : 0 < l.sum := by
  induction l with
  | nil => cases h1
  | cons x xs ih =>
      have hxs : ∀ q ∈ xs, q = 0 ∨ q = 1 :=
        fun q hq => hb q (List.mem_cons_of_mem _ hq)
      rcases hb x (List.mem_cons_self _ _) with rfl | rfl
      · have h1' : (1:ℚ) ∈ xs := by
          rcases List.mem_cons.mp h1 with h | h
          · norm_num at h
          · exact h
        have := ih hxs h1'
        simpa using this
      · have hnn : 0 ≤ xs.sum := binary_sum_nonneg xs hxs
        simp only [List.sum_cons]
        linarith

/-- A 0/1-valued list's sum is at most its length. -/
theorem binary_sum_le_length (l : List ℚ) (hb : ∀ q ∈ l, q = 0 ∨ q = 1) :
    l.sum ≤ (l.length : ℚ) := by
  induction l with
  | nil => simp
  | cons x xs ih =>
      have hxs : ∀ q ∈ xs, q = 0 ∨ q = 1 :=
        fun q hq => hb q (List.mem_cons_of_mem _ hq)
      have := ih hxs
      simp only [List.sum_cons, List.length_cons]
      push_cast
      rcases hb x (List.mem_cons_self _ _) with rfl | rfl <;> linarith

/-- A 0/1-valued list containing a `0` has a sum below its length. -/
theorem binary_sum_lt_length (l : List ℚ) (hb : ∀ q ∈ l, q = 0 ∨ q = 1)
    (h0 : (0:ℚ) ∈ l) : l.sum < (l.length : ℚ) := by
  induction l with
  | nil => cases h0
  | cons x xs ih =>
      have hxs : ∀ q ∈ xs, q = 0 ∨ q = 1 :=
        fun q hq => hb q (List.mem_cons_of_mem _ hq)
      simp only [List.sum_cons, List.length_cons]
      push_cast
      rcases hb x (List.mem_cons_self _ _) with rfl | rfl
      · have := binary_sum_le_length xs hxs
        linarith
      · have h0' : (0:ℚ) ∈ xs := by
          rcases List.mem_cons.mp h0 with h | h
          · norm_num at h
          · exact h
        have := ih hxs h0'
        linarith

/-- The `object`-dtype case of the zero-signal property: a constant
categorical feature with a both-class 0/1 target gives the single bin
`Dist_Good = Dist_Bad = 1`, so its WoE is `ln 1 = 0`, its contribution
vanishes, and the returned IV is `0`. -/
theorem constant_object_iv_zero_aux (K : Type) [Field K] (lg : ℚ → K)
    (df : Dataset) (feature target : String) (c : ℚ) (dt : Dtype)
    (tv : List (Option ℚ))
    (hf : lookupCol df feature =
      some ⟨.object, List.replicate tv.length (some c)⟩)
    (ht : lookupCol df target = some ⟨dt, tv⟩)
    (hbin : ∀ o ∈ tv, o = some (0:ℚ) ∨ o = some 1)
    (h0 : some (0:ℚ) ∈ tv) (h1 : some (1:ℚ) ∈ tv) :
    calculate_iv K lg df feature target = .ok (.fin 0) := by
  have hq : ∀ q ∈ tv.filterMap id, q = 0 ∨ q = 1 := by
    intro q hqq
    rcases List.mem_filterMap.mp hqq with ⟨o, ho, hoq⟩
    rcases hbin o ho with rfl | rfl
    · left
      exact (Option.some_inj.mp hoq).symm
    · right
      exact (Option.some_inj.mp hoq).symm
  have h0q : (0:ℚ) ∈ tv.filterMap id := List.mem_filterMap.mpr ⟨some 0, h0, rfl⟩
  have h1q : (1:ℚ) ∈ tv.filterMap id := List.mem_filterMap.mpr ⟨some 1, h1, rfl⟩
  have hn : tv.length ≠ 0 := by
    intro h
    rw [List.length_eq_zero] at h
    subst h
    cases h0
  have hBpos : 0 < (tv.filterMap id).sum := binary_sum_pos _ hq h1q
  have hGpos : 0 < ((tv.filterMap id).length : ℚ) - (tv.filterMap id).sum := by
    have h2 := binary_sum_lt_length _ hq h0q
    linarith
  have hst : calcStats df feature target =
      .ok [⟨c, (tv.filterMap id).length, (tv.filterMap id).sum⟩] := by
    rw [calcStats_object df feature target _ _ hf ht rfl]
    have hv : (⟨Dtype.object, List.replicate tv.length (some c)⟩ : Column).values =
        List.replicate tv.length (some c) := rfl
    rw [hv, filterMap_id_replicate_some, insertionSort_replicate,
      dedup_replicate_q _ _ hn]
    unfold groupStats
    simp only [List.map_cons, List.map_nil]
    rw [groupAgg_zip_replicate]
  have hTG : totalGood [(⟨c, (tv.filterMap id).length, (tv.filterMap id).sum⟩ : BinStat)] =
      ((tv.filterMap id).length : ℚ) - (tv.filterMap id).sum := by
    simp [totalGood, BinStat.good]
  have hTB : totalBad [(⟨c, (tv.filterMap id).length, (tv.filterMap id).sum⟩ : BinStat)] =
      (tv.filterMap id).sum := by
    simp [totalBad]
  have hb' : ∀ s ∈ [(⟨c, (tv.filterMap id).length, (tv.filterMap id).sum⟩ : BinStat)],
      0 ≤ s.bad ∧ s.bad ≤ (s.total : ℚ) := by
    intro s hs
    rw [List.mem_singleton] at hs
    subst hs
    exact ⟨le_of_lt hBpos, binary_sum_le_length _ hq⟩
  rw [calculate_iv_eq_specIV lg df feature target _ hst hb'
    (by rw [hTG]; exact hGpos) (by rw [hTB]; exact hBpos)]
  have hspec : specIV K lg
      [(⟨c, (tv.filterMap id).length, (tv.filterMap id).sum⟩ : BinStat)] = 0 := by
    unfold specIV
    simp only [BinStat.good, List.map_cons, List.map_nil, List.sum_cons,
      List.sum_nil, add_zero, hTG, hTB]
    rw [div_self (ne_of_gt hGpos), div_self (ne_of_gt hBpos)]
    norm_num [spec_subst]
  rw [hspec]

/-- C8: a constant feature column of any storage dtype, with a 0/1 target
containing both classes, makes `calculate_iv` return IV = 0 without
raising.  A categorical constant forms a single bin with
`Dist_Good = Dist_Bad = 1` and `WoE = ln 1 = 0`; a `float64`/`int64`
constant collapses the deduplicated decile edges to one, `pd.qcut` labels
every row missing, the groupby keeps zero groups, and the skipna sum of
the empty IV column is `0.0`. -/
theorem constant_feature_iv_zero (K : Type) [Field K] (lg : ℚ → K)
    (df : Dataset) (feature target : String) (c : ℚ) (ft dt : Dtype)
    (tv : List (Option ℚ))
    (hf : lookupCol df feature =
      some ⟨ft, List.replicate tv.length (some c)⟩)
    (ht : lookupCol df target = some ⟨dt, tv⟩)
    (hbin : ∀ o ∈ tv, o = some (0:ℚ) ∨ o = some 1)
    (h0 : some (0:ℚ) ∈ tv) (h1 : some (1:ℚ) ∈ tv) :
    calculate_iv K lg df feature target = .ok (.fin 0) := by
  have hn : tv.length ≠ 0 := by
    intro h
    rw [List.length_eq_zero] at h
    subst h
    cases h0
  cases ft with
  | object =>
      exact constant_object_iv_zero_aux K lg df feature target c dt tv hf ht
        hbin h0 h1
  | float64 =>
      have hst := calcStats_constant_numeric df feature target _ _ tv.length c
        hn hf ht (Or.inl rfl) rfl
      unfold calculate_iv
      rw [hst]
      rfl
  | int64 =>
      have hst := calcStats_constant_numeric df feature target _ _ tv.length c
        hn hf ht (Or.inr rfl) rfl
      unfold calculate_iv
      rw [hst]
      rfl

/-- Witness for C8: the constant categorical dataset `df8w` and the
constant `int64` dataset `df8c`, both with two-class targets, each return
exactly `0`. -/
theorem constant_feature_iv_zero_witness :
    calculate_iv ℝ (fun q : ℚ => Real.log q) df8w "f" "t" = .ok (.fin 0) ∧
    calculate_iv ℝ (fun q : ℚ => Real.log q) df8c "f" "t" = .ok (.fin 0) :=
  ⟨constant_feature_iv_zero ℝ (fun q : ℚ => Real.log q) df8w "f" "t" 7
      .object .object [some 0, some 1, some 1, some 0] rfl rfl (by decide)
      (by decide) (by decide),
   constant_feature_iv_zero ℝ (fun q : ℚ => Real.log q) df8c "f" "t" 7
      .int64 .object [some 0, some 1, some 1, some 0] rfl rfl (by decide)
      (by decide) (by decide)⟩

/-- C9: whenever binning succeeds and both classes are present in every bin
(`0 < Bad < Total` per bin, so no zero-substitution is triggered), the IV
returned by `calculate_iv` is the spec formula value and is non-negative:
each per-bin term `(Dist_Good - Dist_Bad) * ln(Dist_Good / Dist_Bad)` is a
product of two factors of equal sign. -/
theorem iv_nonneg (df : Dataset) (feature target : String) (l : List BinStat)
    (h : calcStats df feature target = .ok l)
    (hb : ∀ s ∈ l, 0 < s.bad ∧ s.bad < (s.total : ℚ)) :
    calculate_iv ℝ (fun q : ℚ => Real.log q) df feature target =
      .ok (.fin (specIV ℝ (fun q : ℚ => Real.log q) l)) ∧
    0 ≤ specIV ℝ (fun q : ℚ => Real.log q) l := by
  rcases eq_or_ne l [] with rfl | hne
  · constructor
    · unfold calculate_iv
      rw [h]
      rfl
    · simp [specIV]
  · have hb' : ∀ s ∈ l, 0 ≤ s.bad ∧ s.bad ≤ (s.total : ℚ) :=
      fun s hs => ⟨le_of_lt (hb s hs).1, le_of_lt (hb s hs).2⟩
    have hgood : ∀ s ∈ l, 0 < s.good := by
      intro s hs
      have := (hb s hs).2
      unfold BinStat.good
      linarith
    have hg : 0 < totalGood l := by
      unfold totalGood
      apply List.sum_pos
      · intro x hx
        rcases List.mem_map.mp hx with ⟨s, hs, rfl⟩
        exact hgood s hs
      · simpa using hne
    have hd : 0 < totalBad l := by
      unfold totalBad
      apply List.sum_pos
      · intro x hx
        rcases List.mem_map.mp hx with ⟨s, hs, rfl⟩
        exact (hb s hs).1
      · simpa using hne
    refine ⟨calculate_iv_eq_specIV _ df feature target l h hb' hg hd, ?_⟩
    unfold specIV
    apply List.sum_nonneg
    intro x hx
    rcases List.mem_map.mp hx with ⟨s, hs, rfl⟩
    dsimp only
    have hdg : (0:ℚ) < spec_subst (s.good / totalGood l) :=
      spec_subst_pos _ (div_nonneg (le_of_lt (hgood s hs)) (le_of_lt hg))
    have hdb : (0:ℚ) < spec_subst (s.bad / totalBad l) :=
      spec_subst_pos _ (div_nonneg (le_of_lt (hb s hs).1) (le_of_lt hd))
    set a := spec_subst (s.good / totalGood l) with ha
    set b := spec_subst (s.bad / totalBad l) with hbq
    have hcast : ((a / b : ℚ) : ℝ) = (a : ℝ) / (b : ℝ) := by push_cast; ring
    have hbR : (0:ℝ) < (b : ℝ) := by exact_mod_cast hdb
    rcases le_total b a with hab | hab
    · apply mul_nonneg
      · exact_mod_cast sub_nonneg.mpr hab
      · rw [hcast]
        apply Real.log_nonneg
        rw [le_div_iff₀ hbR, one_mul]
        exact_mod_cast hab
    · have hx1 : ((a - b : ℚ) : ℝ) ≤ 0 := by exact_mod_cast sub_nonpos.mpr hab
      have hx2 : Real.log ((a / b : ℚ) : ℝ) ≤ 0 := by
        apply Real.log_nonpos
        · rw [hcast]
          positivity
        · rw [hcast, div_le_one hbR]
          exact_mod_cast hab
      have hprod := mul_nonneg (neg_nonneg.mpr hx1) (neg_nonneg.mpr hx2)
      rw [neg_mul_neg] at hprod
      exact hprod

/-- Witness for C9: a two-bin dataset with both classes in each bin — the
returned IV equals the spec formula and is non-negative. -/
theorem iv_nonneg_witness :
    calcStats df9w "f" "t" = .ok [⟨3, 2, 1⟩, ⟨4, 3, 2⟩] ∧
    calculate_iv ℝ (fun q : ℚ => Real.log q) df9w "f" "t" =
      .ok (.fin (specIV ℝ (fun q : ℚ => Real.log q) [⟨3, 2, 1⟩, ⟨4, 3, 2⟩])) ∧
    0 ≤ specIV ℝ (fun q : ℚ => Real.log q) [⟨3, 2, 1⟩, ⟨4, 3, 2⟩] := by
  have hst : calcStats df9w "f" "t" = .ok [⟨3, 2, 1⟩, ⟨4, 3, 2⟩] := by
    rw [calcStats_object df9w "f" "t"
      ⟨.object, [some 3, some 3, some 4, some 4, some 4]⟩
      ⟨.object, [some 0, some 1, some 0, some 1, some 1]⟩ rfl rfl rfl]
    norm_num [groupStats, groupAgg, List.insertionSort, List.orderedInsert,
      List.dedup, List.pwFilter, List.filterMap, List.filter, List.zip,
      List.zipWith]
  exact ⟨hst, (iv_nonneg df9w "f" "t" _ hst (by decide)).1,
    (iv_nonneg df9w "f" "t" _ hst (by decide)).2⟩

/-- Logarithm of a positive rational through `xlog`. -/
theorem xlog_fin_pos {K : Type} (lg : ℚ → K) (q : ℚ) (h : 0 < q) :
    xlog lg (.fin q) = .fin (lg q) := by
  simp [xlog, h]

/-- Rational-power bound used for the golden-value check:
`5000^100 < e^853`. -/
theorem exp_pow_lower : (5000:ℝ) ^ (100:ℕ) < Real.exp 1 ^ (853:ℕ) := by
  have hc : ((2.7182818283:ℝ)) ^ (853:ℕ) ≤ Real.exp 1 ^ (853:ℕ) :=
    pow_le_pow_left₀ (by norm_num) (le_of_lt Real.exp_one_gt_d9) 853
  refine lt_of_lt_of_le ?_ hc
  have hnat : (5000:ℕ)^(100:ℕ) * (10:ℕ)^(8530:ℕ) < (27182818283:ℕ)^(853:ℕ) := by
    norm_num
  have h10 : (2.7182818283 : ℝ) = (27182818283:ℝ) / (10:ℝ)^(10:ℕ) := by norm_num
  rw [h10, div_pow, ← pow_mul, lt_div_iff₀ (by positivity)]
  have h2 : (10:ℕ) * 853 = 8530 := by norm_num
  rw [h2]
  exact_mod_cast hnat

/-- Rational-power bound used for the golden-value check:
`e^851 < 5000^100`. -/
theorem exp_pow_upper : Real.exp 1 ^ (851:ℕ) < (5000:ℝ) ^ (100:ℕ) := by
  have hc : Real.exp 1 ^ (851:ℕ) ≤ (2.7182818286:ℝ) ^ (851:ℕ) :=
    pow_le_pow_left₀ (le_of_lt (Real.exp_pos 1)) (le_of_lt Real.exp_one_lt_d9) 851
  refine lt_of_le_of_lt hc ?_
  have hnat : (27182818286:ℕ)^(851:ℕ) < (5000:ℕ)^(100:ℕ) * (10:ℕ)^(8510:ℕ) := by
    norm_num
  have h10 : (2.7182818286 : ℝ) = (27182818286:ℝ) / (10:ℝ)^(10:ℕ) := by norm_num
  rw [h10, div_pow, ← pow_mul, div_lt_iff₀ (by positivity)]
  have h2 : (10:ℕ) * 851 = 8510 := by norm_num
  rw [h2]
  exact_mod_cast hnat

/-- The WoE of the zero-substituted bin: `8.51 < ln 5000 < 8.53`, so
`ln(0.5/0.0001) ≈ 8.52` as the specification states. -/
theorem log_5000_bounds : (8.51:ℝ) < Real.log 5000 ∧ Real.log 5000 < (8.53:ℝ) := by
  constructor
  · rw [show (8.51:ℝ) = 851/100 by norm_num]
    rw [Real.lt_log_iff_exp_lt (by norm_num : (0:ℝ) < 5000)]
    have hp : (Real.exp (851/100)) ^ (100:ℕ) < (5000:ℝ)^(100:ℕ) := by
      rw [← Real.exp_nat_mul]
      rw [show ((100:ℕ):ℝ) * (851/100) = ((851:ℕ):ℝ) * 1 by norm_num]
      rw [Real.exp_nat_mul]
      exact exp_pow_upper
    exact lt_of_pow_lt_pow_left₀ 100 (by norm_num) hp
  · rw [show (8.53:ℝ) = 853/100 by norm_num]
    rw [Real.log_lt_iff_lt_exp (by norm_num : (0:ℝ) < 5000)]
    have hp : (5000:ℝ)^(100:ℕ) < (Real.exp (853/100)) ^ (100:ℕ) := by
      rw [← Real.exp_nat_mul]
      rw [show ((100:ℕ):ℝ) * (853/100) = ((853:ℕ):ℝ) * 1 by norm_num]
      rw [Real.exp_nat_mul]
      exact exp_pow_lower
    exact lt_of_pow_lt_pow_left₀ 100 (le_of_lt (Real.exp_pos _)) hp

/-- Four-entry `NaN`-free column sum. -/
theorem nansum_four {K : Type} [Field K] (a b c d : K) :
    nansum [XV.fin a, XV.fin b, XV.fin c, XV.fin d] = .fin (a + (b + (c + d))) := by
  show nansum (List.map XV.fin [a, b, c, d]) = _
  rw [nansum_map_fin]
  simp

set_option maxHeartbeats 1000000 in
/-- C2: the golden scenario — categorical feature `[1,1,2,2,3,3,4,4]`,
target `[0,0,1,1,0,1,0,1]` — produces 4 bins each with `Total = 2`; the bin
for value 1 has `Good = 2`, `Bad = 0`, `Dist_Good = 0.5`, `Dist_Bad`
substituted to `0.0001`; its WoE is `ln(0.5/0.0001) = ln 5000`, which lies
in `(8.51, 8.53)` (so `≈ 8.52`); and the returned IV is exactly the sum of
the four per-bin contributions `(Dist_Good - Dist_Bad) × WoE`. -/
theorem iv_golden_scenario :
    calcStats df2g "f" "t" = .ok [⟨1, 2, 0⟩, ⟨2, 2, 2⟩, ⟨3, 2, 1⟩, ⟨4, 2, 1⟩] ∧
    substDists [⟨1, 2, 0⟩, ⟨2, 2, 2⟩, ⟨3, 2, 1⟩, ⟨4, 2, 1⟩] =
      [(XQ.fin (1/2), XQ.fin (1/10000)), (XQ.fin (1/10000), XQ.fin (1/2)),
       (XQ.fin (1/4), XQ.fin (1/4)), (XQ.fin (1/4), XQ.fin (1/4))] ∧
    binWoEs (fun q : ℚ => Real.log q) [⟨1, 2, 0⟩, ⟨2, 2, 2⟩, ⟨3, 2, 1⟩, ⟨4, 2, 1⟩] =
      [XV.fin (Real.log 5000), XV.fin (Real.log (1/5000)),
       XV.fin (Real.log 1), XV.fin (Real.log 1)] ∧
    calculate_iv ℝ (fun q : ℚ => Real.log q) df2g "f" "t" =
      .ok (.fin ((1/2 - 1/10000) * Real.log 5000 +
        ((1/10000 - 1/2) * Real.log (1/5000) +
         ((1/4 - 1/4) * Real.log 1 + (1/4 - 1/4) * Real.log 1)))) ∧
    (8.51:ℝ) < Real.log 5000 ∧ Real.log 5000 < (8.53:ℝ) := by
  have hst : calcStats df2g "f" "t" =
      .ok [⟨1, 2, 0⟩, ⟨2, 2, 2⟩, ⟨3, 2, 1⟩, ⟨4, 2, 1⟩] := by
    rw [calcStats_object df2g "f" "t"
      ⟨.object, [some 1, some 1, some 2, some 2, some 3, some 3, some 4, some 4]⟩
      ⟨.object, [some 0, some 0, some 1, some 1, some 0, some 1, some 0, some 1]⟩
      rfl rfl rfl]
    norm_num [groupStats, groupAgg, List.insertionSort, List.orderedInsert,
      List.dedup, List.pwFilter, List.filterMap, List.filter, List.zip,
      List.zipWith]
  have hsub : substDists [⟨1, 2, 0⟩, ⟨2, 2, 2⟩, ⟨3, 2, 1⟩, ⟨4, 2, 1⟩] =
      [(XQ.fin (1/2), XQ.fin (1/10000)), (XQ.fin (1/10000), XQ.fin (1/2)),
       (XQ.fin (1/4), XQ.fin (1/4)), (XQ.fin (1/4), XQ.fin (1/4))] := by
    norm_num [substDists, rawDists, totalGood, totalBad, BinStat.good,
      XQ.div, replaceZero]
  refine ⟨hst, hsub, ?_, ?_, log_5000_bounds.1, log_5000_bounds.2⟩
  · unfold binWoEs
    rw [hsub]
    norm_num [XQ.div, xlog]
  · unfold calculate_iv
    rw [hst]
    show Except.ok (nansum (binIVs (fun q : ℚ => Real.log q)
      [⟨1, 2, 0⟩, ⟨2, 2, 2⟩, ⟨3, 2, 1⟩, ⟨4, 2, 1⟩])) = _
    unfold binIVs
    rw [hsub]
    simp only [List.map_cons, List.map_nil]
    rw [binContrib_fin_pos _ _ _ (by norm_num) (by norm_num),
        binContrib_fin_pos _ _ _ (by norm_num) (by norm_num),
        binContrib_fin_pos _ _ _ (by norm_num) (by norm_num),
        nansum_four]
    norm_num

/-- The interpolated decile quantiles of a two-entry list: position
`i/10` between the two order statistics. -/
theorem quantileAt_two (x y : ℚ) (i : ℕ) (hi : i ≤ 10) :
    quantileAt [x, y] i = x + ((i : ℚ) / 10) * (y - x) := by
  interval_cases i <;>
    norm_num [quantileAt, List.getD_cons_zero, List.getD_cons_succ,
      List.getD_nil]

/-- A column holding exactly the two values `x < y` keeps all eleven
interpolated decile edges distinct: deduplication drops nothing. -/
theorem qcutEdges_pair (x y : ℚ) (hxy : x < y) :
    (qcutEdges [x, y]).length = 11 := by
  unfold qcutEdges
  have hsort : ([x, y] : List ℚ).insertionSort (· ≤ ·) = [x, y] := by
    apply List.Sorted.insertionSort_eq
    exact List.sorted_cons.mpr ⟨fun b hb => by
      rcases List.mem_singleton.mp hb with rfl
      exact le_of_lt hxy, List.sorted_singleton y⟩
  rw [hsort]
  have hyx : y - x ≠ 0 := sub_ne_zero.mpr (ne_of_gt hxy)
  have hmap : ((List.range 11).map (quantileAt [x, y])).Nodup := by
    refine List.Nodup.map_on ?_ (List.nodup_range 11)
    intro i hi j hj hij
    rw [quantileAt_two x y i (Nat.lt_succ_iff.mp (List.mem_range.mp hi)),
        quantileAt_two x y j (Nat.lt_succ_iff.mp (List.mem_range.mp hj))] at hij
    have h1 : ((i:ℚ)/10) * (y - x) = ((j:ℚ)/10) * (y - x) := by linarith
    have h2 : ((i:ℚ)/10) = ((j:ℚ)/10) := mul_right_cancel₀ hyx h1
    have h3 : (i:ℚ) = (j:ℚ) := by linarith
    exact_mod_cast h3
  rw [List.dedup_eq_self.mpr hmap]
  simp

/-- At most eleven deduplicated decile edges exist. -/
theorem qcutEdges_le_eleven (xs : List ℚ) : (qcutEdges xs).length ≤ 11 := by
  unfold qcutEdges
  calc ((List.range 11).map (quantileAt (xs.insertionSort (· ≤ ·)))).dedup.length
      ≤ ((List.range 11).map (quantileAt (xs.insertionSort (· ≤ ·)))).length :=
        List.Sublist.length_le (List.dedup_sublist _)
    _ = 11 := by simp

/-- C4 (amended): a `float64`/`int64` feature is partitioned without error
by the deduplicated decile edges into `(edges - 1) ≤ 10` quantile bins,
while a feature whose storage type is not `float64`/`int64` is not
discretized — its bins are exactly the sorted distinct values, one per
value.  (Fewer than 10 distinct values need not yield fewer than 10 bins:
linear interpolation can keep all eleven edges distinct even for two
distinct values — see the counterexample.) -/
theorem binning_policy (df : Dataset) (f t : String) (fc tc : Column)
    (hf : lookupCol df f = some fc) (ht : lookupCol df t = some tc) :
    ((fc.dtype = .float64 ∨ fc.dtype = .int64) →
      ∃ l, calcStats df f t = .ok l ∧
        l.length = (qcutEdges (fc.values.filterMap id)).length - 1 ∧
        l.length ≤ 10) ∧
    (fc.dtype = .object →
      ∃ l, calcStats df f t = .ok l ∧
        l.map BinStat.key = ((fc.values.filterMap id).insertionSort (· ≤ ·)).dedup ∧
        l.length = (fc.values.filterMap id).dedup.length) := by
  constructor
  · intro hd
    refine ⟨_, calcStats_numeric df f t fc tc hf ht hd, ?_, ?_⟩
    · unfold groupStats
      rw [List.length_map, List.length_map, List.length_range]
    · unfold groupStats
      have h11 := qcutEdges_le_eleven (fc.values.filterMap id)
      rw [List.length_map, List.length_map, List.length_range]
      omega
  · intro hd
    refine ⟨_, calcStats_object df f t fc tc hf ht hd, ?_, ?_⟩
    · unfold groupStats
      rw [List.map_map]
      have : (BinStat.key ∘ groupAgg (fc.values.zip tc.values)) = id := by
        funext k
        rfl
      rw [this, List.map_id]
    · unfold groupStats
      rw [List.length_map]
      exact ((List.perm_insertionSort (· ≤ ·) _).dedup).length_eq

/-- Witness for C4 (amended): a heavily tied two-value `float64` column is
binned without error into at most ten bins. -/
theorem binning_policy_witness :
    ∃ l, calcStats df4w "f" "t" = .ok l ∧
      l.length = (qcutEdges (([some 1, some 1, some 1, some 1, some 1,
        some 9, some 9, some 9, some 9, some 9] : List (Option ℚ)).filterMap id)).length - 1 ∧
      l.length ≤ 10 :=
  (binning_policy df4w "f" "t"
    ⟨.float64, [some 1, some 1, some 1, some 1, some 1,
                some 9, some 9, some 9, some 9, some 9]⟩
    ⟨.object, [some 0, some 1, some 0, some 1, some 0,
               some 1, some 0, some 1, some 0, some 1]⟩ rfl rfl).1
    (Or.inl rfl)

/-- Counterexample to C4 as stated: the `float64` feature of `df4t` has
only two distinct values — fewer than ten — yet linear interpolation keeps
all eleven decile edges distinct and the grouped frame has exactly ten
bins, not fewer. -/
theorem ten_bins_from_two_values :
    (∃ l, calcStats df4t "f" "t" = .ok l ∧ l.length = 10) ∧
    (([some 1, some 2] : List (Option ℚ)).filterMap id).dedup.length = 2 := by
  refine ⟨⟨_, calcStats_numeric df4t "f" "t"
    ⟨.float64, [some 1, some 2]⟩ ⟨.object, [some 0, some 1]⟩ rfl rfl
    (Or.inl rfl), ?_⟩, by decide⟩
  have hpair : (qcutEdges ((([some 1, some 2] : List (Option ℚ)).filterMap id))).length = 11 := by
    rw [show (([some 1, some 2] : List (Option ℚ)).filterMap id) =
      [(1:ℚ), 2] from rfl]
    exact qcutEdges_pair 1 2 (by norm_num)
  unfold groupStats
  rw [List.length_map, List.length_map, List.length_range,
    show ((⟨.float64, [some 1, some 2]⟩ : Column).values) =
      ([some 1, some 2] : List (Option ℚ)) from rfl, hpair]
